import Mathlib

/-!
Verification of the gas-resolution subsystem of `pysui`
(`src/pysui/sui/sui_pgql/pgql_txb_gas.py`).

The Python module is embedded shallowly:

* `SuiCoinObjectGQL` models the coin records returned by the GraphQL coin
  queries; the Python field `balance` is a decimal string that the module
  always reads through `int(...)`, so it is modelled directly as `Int`.
* Remote queries are modelled by a `Client` record holding the responses the
  remote side would give: a function for the coins-by-id query, a stream of
  page responses for the paginated coins-by-owner query, and a function for
  the dry-run query.  Every function that talks to the client also returns
  the list of queries it issued, in order, so that temporal claims about
  which queries a resolution performs can be stated.
* Python exceptions become the `Except GasError` monad; each `GasError`
  constructor corresponds to one `raise ValueError(...)` site of the module
  and carries the data interpolated into that message.
* `bcs.ObjectReference`, `bcs.Address` and `SignerBlock` live outside the
  provided sources; they are modelled from the spec (see their doc comments).
-/

namespace PysuiGas

/-- A coin record as returned by the GraphQL coin queries
(`pgql_type.SuiCoinObjectGQL`): identifier, version, digest and balance.
The Python `balance` field is a string; the gas module always converts it
with `int(...)`, so it is modelled as `Int` directly. -/
structure SuiCoinObjectGQL where
  coin_object_id : String
  version : Int
  object_digest : String
  balance : Int
deriving Repr, DecidableEq

/-- Modelled from the spec: `bcs.ObjectReference` is outside the provided
sources; the glossary defines an object reference as a tuple of identifier,
version and content digest. -/
structure ObjectReference where
  object_id : String
  version : Int
  digest : String
deriving Repr, DecidableEq

/-- Modelled from the spec: `bcs.ObjectReference.from_gql_ref` builds the
reference (identifier, version, digest) from a fetched coin record. -/
def ObjectReference.from_gql_ref (c : SuiCoinObjectGQL) : ObjectReference :=
  ⟨c.coin_object_id, c.version, c.object_digest⟩

/-- Modelled from the spec: the signer context (`SignerBlock`, outside the
provided sources) exposes a paying address, a sender address and an optional
sponsor address, all opaque strings. -/
structure SignerBlock where
  payer_address : String
  sender_str : String
  sponsor_str : Option String
deriving Repr, DecidableEq

/-- Result of one remote query: `result.is_ok()` with `result_data`, or a
failure carrying `result_string`. -/
inductive GQLResult (α : Type) where
  | ok (result_data : α)
  | err (result_string : String)
deriving Repr, DecidableEq

/-- One page of the paginated `GetCoins` response: the page's coin records
and the `next_cursor.hasNextPage` flag. -/
structure CoinPage where
  data : List SuiCoinObjectGQL
  hasNextPage : Bool
deriving Repr, DecidableEq

/-- The `tx_meta` dictionary of the `DryRunTransactionKind` query. -/
structure DryRunTxMeta where
  sender : String
  gasPrice : Int
  gasSponsor : Option String
deriving Repr, DecidableEq

/-- The arguments of the `DryRunTransactionKind` query node. -/
structure DryRunTxArgs where
  tx_bytestr : String
  tx_meta : DryRunTxMeta
  skip_checks : Bool
deriving Repr, DecidableEq

/-- The part of the dry-run response the module reads:
`transaction_block.effects["status"]`, the gas summary's computation and
storage costs (read through `int(...)`), and `result_data.errors`. -/
structure DryRunResultData where
  status : String
  computationCost : Int
  storageCost : Int
  errors : String
deriving Repr, DecidableEq

/-- The remote side, as the module observes it: the response to a
coins-by-id query, the successive responses to the paginated coins-by-owner
queries, and the response to a dry-run query. -/
structure Client where
  multiple_gas_objects : List String → GQLResult (List SuiCoinObjectGQL)
  coin_pages : List (GQLResult CoinPage)
  dry_run : DryRunTxArgs → GQLResult DryRunResultData

/-- A query issued to the client, for the issued-query log. -/
inductive Query where
  | getMultipleGasObjects (coin_object_ids : List String)
  | getCoins (owner : String) (page : Nat)
  | dryRunTransactionKind (args : DryRunTxArgs)
deriving Repr, DecidableEq

/-- The `raise ValueError(...)` sites of the module, with the data each
message interpolates. -/
inductive GasError where
  /-- "Error retrieving coins by id {result.result_string}" -/
  | coinRetrieval (msg : String)
  /-- "{result.result_data.errors}" : dry run status not "SUCCESS" -/
  | dryRunFailed (errors : String)
  /-- "Error running DryRunTransactionBlock: {result.result_string}" -/
  | dryRunQueryError (msg : String)
  /-- "use_gas_objects must use same type." -/
  | mixedUseCoins
  /-- "Total gas available {_accum}, transaction requires {budget}" -/
  | insufficientGas (available required : Int)
  /-- "No coin objects found to fund transaction." -/
  | noCoinObjects
deriving Repr, DecidableEq

/-- `_get_gas_objects`: one coins-by-id query; propagates the remote error
message on failure. -/
def get_gas_objects (client : Client) (gas_ids : List String) :
    Except GasError (List SuiCoinObjectGQL) × List Query :=
  ((match client.multiple_gas_objects gas_ids with
    | .ok data => .ok data
    | .err s => .error (.coinRetrieval s)),
   [Query.getMultipleGasObjects gas_ids])

/-- The `while True` loop of `_get_all_gas_objects`, recursing on the stream
of page responses: on a failed response the loop breaks with what was
accumulated so far; on a successful page it extends the accumulator and
continues only while `hasNextPage`.  (An exhausted response stream models a
client that never answers the pending query; the code would block there, so
the `[]` case is never exercised by a well-formed stream.) -/
def get_all_gas_loop (payer : String) :
    List (GQLResult CoinPage) → Nat → List SuiCoinObjectGQL →
    List SuiCoinObjectGQL × List Query
  | [], _, coin_list => (coin_list, [])
  | resp :: rest, idx, coin_list =>
    match resp with
    | .err _ => (coin_list, [Query.getCoins payer idx])
    | .ok page =>
      if page.hasNextPage then
        let r := get_all_gas_loop payer rest (idx + 1) (coin_list ++ page.data)
        (r.1, Query.getCoins payer idx :: r.2)
      else
        (coin_list ++ page.data, [Query.getCoins payer idx])

/-- `_get_all_gas_objects`: fetch all coins owned by the payer, following the
pagination cursor.  Never raises: any failed response just ends the loop. -/
def get_all_gas_objects (signing : SignerBlock) (client : Client) :
    List SuiCoinObjectGQL × List Query :=
  get_all_gas_loop signing.payer_address client.coin_pages 0 []

/-- `_dry_run_for_budget`: one dry-run query carrying the serialized
transaction, the sender, the gas price and the sponsor, with
`skip_checks=False`; on success returns computation cost + storage cost. -/
def dry_run_for_budget (signing : SignerBlock) (client : Client)
    (tx_bytes : String) (active_gas_price : Int) :
    Except GasError Int × List Query :=
  let args : DryRunTxArgs :=
    { tx_bytestr := tx_bytes
      tx_meta := { sender := signing.sender_str
                   gasPrice := active_gas_price
                   gasSponsor := signing.sponsor_str }
      skip_checks := false }
  ((match client.dry_run args with
    | .ok d =>
      if d.status = "SUCCESS" then
        .ok (d.computationCost + d.storageCost)
      else
        .error (.dryRunFailed d.errors)
    | .err s => .error (.dryRunQueryError s)),
   [Query.dryRunTransactionKind args])

/-- The accumulation loop of `_coins_for_budget`: walk the coins in input
order, appending each to the selection and adding its balance, stopping as
soon as the running sum reaches the budget (`if _accum >= budget: break`). -/
def accum_coins (budget : Int) :
    List SuiCoinObjectGQL → Int → List SuiCoinObjectGQL →
    Int × List SuiCoinObjectGQL
  | [], accum, sel => (accum, sel)
  | c :: rest, accum, sel =>
    if budget ≤ accum then (accum, sel)
    else accum_coins budget rest (accum + c.balance) (sel ++ [c])

/-- `_coins_for_budget`: if some coin's balance strictly exceeds the budget,
select the first such coin; otherwise accumulate in input order and fail
with the insufficient-gas error when the total still falls short. -/
def coins_for_budget (coins : List SuiCoinObjectGQL) (budget : Int) :
    Except GasError (List ObjectReference) :=
  match coins.filter (fun x => decide (budget < x.balance)) with
  | c :: _ => .ok [ObjectReference.from_gql_ref c]
  | [] =>
    let r := accum_coins budget coins 0 []
    if r.1 < budget then .error (.insufficientGas r.1 budget)
    else .ok (r.2.map ObjectReference.from_gql_ref)

/-- Sum of the balances of a coin list. -/
def sum_balances (l : List SuiCoinObjectGQL) : Int :=
  (l.map SuiCoinObjectGQL.balance).sum

/-- An element of the `use_coins` argument of `get_gas_data`: Python allows
a coin identifier string or an already-fetched coin record. -/
inductive CoinArg where
  | idStr (s : String)
  | coin (c : SuiCoinObjectGQL)
deriving Repr, DecidableEq

/-- `isinstance(x, str)` on a `use_coins` element. -/
def CoinArg.is_str : CoinArg → Bool
  | .idStr _ => true
  | .coin _ => false

/-- `isinstance(x, pgql_type.SuiCoinObjectGQL)` on a `use_coins` element. -/
def CoinArg.is_coin : CoinArg → Bool
  | .idStr _ => false
  | .coin _ => true

/-- Project the identifier of a string element. -/
def CoinArg.as_str : CoinArg → Option String
  | .idStr s => some s
  | .coin _ => none

/-- Project the coin record of a coin element. -/
def CoinArg.as_coin : CoinArg → Option SuiCoinObjectGQL
  | .idStr _ => none
  | .coin c => some c

/-- Python truthiness of the optional `use_coins` list: `if use_coins:` is
taken only when the argument is present and non-empty. -/
def truthy_coins : Option (List CoinArg) → Bool
  | none => false
  | some l => !l.isEmpty

/-- Python truthiness of the optional `budget` integer: `if not budget:` is
taken when the argument is absent or equal to zero. -/
def truthy_budget : Option Int → Bool
  | none => false
  | some b => decide (b ≠ 0)

/-- The "Get available coins" step of `get_gas_data`: a truthy `use_coins`
must be all identifier strings (fetched by id) or all coin records (kept as
given), otherwise the mixed-type error is raised; a falsy `use_coins`
(absent or empty) fetches all coins owned by the payer. -/
def determine_use_coins (signing : SignerBlock) (client : Client)
    (use_coins : Option (List CoinArg)) :
    Except GasError (List SuiCoinObjectGQL) × List Query :=
  if truthy_coins use_coins then
    let l := use_coins.getD []
    if l.all CoinArg.is_str then
      get_gas_objects client (l.filterMap CoinArg.as_str)
    else if l.all CoinArg.is_coin then
      (.ok (l.filterMap CoinArg.as_coin), [])
    else
      (.error .mixedUseCoins, [])
  else
    let r := get_all_gas_objects signing client
    (.ok r.1, r.2)

/-- The output `bcs.GasData`: selected object references, paying address
(`bcs.Address.from_str` is modelled as the address string itself), gas
price and budget. -/
structure GasData where
  payment : List ObjectReference
  owner : String
  price : Int
  budget : Int
deriving Repr, DecidableEq

/-- `get_gas_data`: determine candidate coins, determine the budget (dry
run only when `budget` is falsy), drop coins whose identifier is in
`objects_in_use`, and select coins for the budget; the second component is
the list of remote queries issued, in order, up to the point of return or
failure.  The already-serialized transaction body
(`base64.b64encode(tx_kind.serialize()).decode()`) is the opaque string
`tx_kind_b64`. -/
def get_gas_data (signing : SignerBlock) (client : Client)
    (budget : Option Int) (use_coins : Option (List CoinArg))
    (objects_in_use : List String) (active_gas_price : Int)
    (tx_kind_b64 : String) :
    Except GasError GasData × List Query :=
  match (determine_use_coins signing client use_coins).1 with
  | .error e => (.error e, (determine_use_coins signing client use_coins).2)
  | .ok coins =>
    let bs : Except GasError Int × List Query :=
      if truthy_budget budget then (.ok (budget.getD 0), [])
      else dry_run_for_budget signing client tx_kind_b64 active_gas_price
    ((match bs.1 with
      | .error e => .error e
      | .ok b =>
        let filtered :=
          coins.filter (fun x => !(objects_in_use.contains x.coin_object_id))
        if filtered.isEmpty then .error .noCoinObjects
        else
          match coins_for_budget filtered b with
          | .error e => .error e
          | .ok refs =>
            .ok { payment := refs
                  owner := signing.payer_address
                  price := active_gas_price
                  budget := b }),
     (determine_use_coins signing client use_coins).2 ++ bs.2)

/-- The dry-run queries of an issued-query log, in order. -/
def dry_run_queries (log : List Query) : List DryRunTxArgs :=
  log.filterMap fun q =>
    match q with
    | .dryRunTransactionKind a => some a
    | _ => none

/-! ### Concrete fixtures used by witnesses and counterexamples -/

/-- A 50-balance coin. -/
def c1_ex : SuiCoinObjectGQL := ⟨"0xc1", 1, "dig1", 50⟩

/-- A 30-balance coin. -/
def c2_ex : SuiCoinObjectGQL := ⟨"0xc2", 2, "dig2", 30⟩

/-- A 40-balance coin. -/
def c3_ex : SuiCoinObjectGQL := ⟨"0xc3", 3, "dig3", 40⟩

/-- A concrete signer context. -/
def sig_ex : SignerBlock := ⟨"0xpayer", "0xsender", some "0xsponsor"⟩

/-- A concrete client answering with the given page stream, with fixed
answers for the other queries. -/
def mk_client (pages : List (GQLResult CoinPage)) : Client :=
  { multiple_gas_objects := fun _ => .ok [c1_ex, c2_ex]
    coin_pages := pages
    dry_run := fun _ => .ok ⟨"SUCCESS", 3, 4, ""⟩ }

/-- A concrete client whose coin listing has a single final page. -/
def client_ex : Client := mk_client [.ok ⟨[c1_ex, c2_ex], false⟩]

/-! ### Lemmas about the accumulation loop -/

theorem sum_balances_nil : sum_balances [] = 0 := rfl

theorem sum_balances_cons (c : SuiCoinObjectGQL) (l : List SuiCoinObjectGQL) :
    sum_balances (c :: l) = c.balance + sum_balances l := by
  simp [sum_balances]

theorem sum_balances_append (l₁ l₂ : List SuiCoinObjectGQL) :
    sum_balances (l₁ ++ l₂) = sum_balances l₁ + sum_balances l₂ := by
  simp [sum_balances]

theorem sum_balances_nonneg (l : List SuiCoinObjectGQL)
    (h : ∀ c ∈ l, 0 ≤ c.balance) : 0 ≤ sum_balances l := by
  induction l with
  | nil => simp [sum_balances]
  | cons c rest ih =>
    rw [sum_balances_cons]
    have h1 := h c (List.mem_cons_self c rest)
    have h2 := ih fun x hx => h x (List.mem_cons_of_mem c hx)
    linarith

theorem balance_le_sum (l : List SuiCoinObjectGQL) (c : SuiCoinObjectGQL)
    (hc : c ∈ l) (h : ∀ x ∈ l, 0 ≤ x.balance) : c.balance ≤ sum_balances l := by
  induction l with
  | nil => cases hc
  | cons d rest ih =>
    rw [sum_balances_cons]
    rcases List.mem_cons.mp hc with h1 | h1
    · subst h1
      have := sum_balances_nonneg rest fun x hx => h x (List.mem_cons_of_mem c hx)
      linarith
    · have h2 := ih h1 fun x hx => h x (List.mem_cons_of_mem d hx)
      have h3 := h d (List.mem_cons_self d rest)
      linarith

theorem accum_coins_ge (b : Int) (l : List SuiCoinObjectGQL) :
    ∀ (a : Int) (s : List SuiCoinObjectGQL),
      b ≤ a + sum_balances l → b ≤ (accum_coins b l a s).1 := by
  induction l with
  | nil =>
    intro a s h
    rw [sum_balances_nil] at h
    simpa [accum_coins] using h
  | cons c rest ih =>
    intro a s h
    by_cases hba : b ≤ a
    · simp [accum_coins, hba]
    · rw [sum_balances_cons] at h
      have h2 : b ≤ (a + c.balance) + sum_balances rest := by linarith
      simpa [accum_coins, hba] using ih (a + c.balance) (s ++ [c]) h2

theorem accum_coins_sum (b : Int) (l : List SuiCoinObjectGQL) :
    ∀ (a : Int) (s : List SuiCoinObjectGQL), a = sum_balances s →
      (accum_coins b l a s).1 = sum_balances (accum_coins b l a s).2 := by
  induction l with
  | nil =>
    intro a s h
    simpa [accum_coins] using h
  | cons c rest ih =>
    intro a s h
    by_cases hba : b ≤ a
    · simpa [accum_coins, hba] using h
    · have h2 : a + c.balance = sum_balances (s ++ [c]) := by
        rw [sum_balances_append, sum_balances_cons, sum_balances_nil, h]
        ring
      simpa [accum_coins, hba] using ih (a + c.balance) (s ++ [c]) h2

theorem accum_coins_dropLast (b : Int) (l : List SuiCoinObjectGQL) :
    ∀ (a : Int) (s : List SuiCoinObjectGQL), a = sum_balances s →
      (s = [] ∨ sum_balances s.dropLast < b) →
      ((accum_coins b l a s).2 = [] ∨
        sum_balances (accum_coins b l a s).2.dropLast < b) := by
  induction l with
  | nil =>
    intro a s _ hs
    simpa [accum_coins] using hs
  | cons c rest ih =>
    intro a s h hs
    by_cases hba : b ≤ a
    · simpa [accum_coins, hba] using hs
    · have h2 : a + c.balance = sum_balances (s ++ [c]) := by
        rw [sum_balances_append, sum_balances_cons, sum_balances_nil, h]
        ring
      have h3 : sum_balances (s ++ [c]).dropLast < b := by
        rw [List.dropLast_concat, ← h]
        linarith
      simpa [accum_coins, hba] using
        ih (a + c.balance) (s ++ [c]) h2 (Or.inr h3)

theorem accum_coins_all (b : Int) (l : List SuiCoinObjectGQL) :
    ∀ (a : Int) (s : List SuiCoinObjectGQL), (∀ c ∈ l, 0 ≤ c.balance) →
      a + sum_balances l < b →
      accum_coins b l a s = (a + sum_balances l, s ++ l) := by
  induction l with
  | nil =>
    intro a s _ _
    simp [accum_coins, sum_balances_nil]
  | cons c rest ih =>
    intro a s hnn hlt
    have h0 : 0 ≤ sum_balances (c :: rest) := sum_balances_nonneg _ hnn
    have hba : ¬ b ≤ a := by linarith
    rw [sum_balances_cons] at hlt
    have h1 : (a + c.balance) + sum_balances rest < b := by linarith
    have h2 := ih (a + c.balance) (s ++ [c])
      (fun x hx => hnn x (List.mem_cons_of_mem c hx)) h1
    rw [accum_coins, if_neg hba, h2, sum_balances_cons]
    have h3 : (a + c.balance) + sum_balances rest
        = a + (c.balance + sum_balances rest) := by ring
    rw [h3]
    simp

theorem accum_coins_mem (b : Int) (l : List SuiCoinObjectGQL) :
    ∀ (a : Int) (s : List SuiCoinObjectGQL) (x : SuiCoinObjectGQL),
      x ∈ (accum_coins b l a s).2 → x ∈ s ∨ x ∈ l := by
  induction l with
  | nil =>
    intro a s x hx
    exact Or.inl (by simpa [accum_coins] using hx)
  | cons c rest ih =>
    intro a s x hx
    by_cases hba : b ≤ a
    · simp [accum_coins, hba] at hx
      exact Or.inl hx
    · simp only [accum_coins, hba, if_neg hba] at hx
      rcases ih (a + c.balance) (s ++ [c]) x hx with h1 | h1
      · rcases List.mem_append.mp h1 with h2 | h2
        · exact Or.inl h2
        · simp at h2
          subst h2
          exact Or.inr (List.mem_cons_self x rest)
      · exact Or.inr (List.mem_cons_of_mem c h1)

theorem coins_for_budget_mem (coins : List SuiCoinObjectGQL) (budget : Int)
    (refs : List ObjectReference) (h : coins_for_budget coins budget = .ok refs)
    (r : ObjectReference) (hr : r ∈ refs) :
    ∃ c ∈ coins, r = ObjectReference.from_gql_ref c := by
  rw [coins_for_budget] at h
  cases hfil : coins.filter (fun x => decide (budget < x.balance)) with
  | cons c rest =>
    rw [hfil] at h
    have hc : c ∈ coins :=
      List.mem_of_mem_filter (hfil ▸ List.mem_cons_self c rest)
    cases h
    simp at hr
    exact ⟨c, hc, hr⟩
  | nil =>
    rw [hfil] at h
    by_cases hlt : (accum_coins budget coins 0 []).1 < budget
    · rw [if_pos hlt] at h
      cases h
    · rw [if_neg hlt] at h
      cases h
      rcases List.mem_map.mp hr with ⟨c, hc, hcr⟩
      rcases accum_coins_mem budget coins 0 [] c hc with h1 | h1
      · cases h1
      · exact ⟨c, h1, hcr.symm⟩

/-! ### The selector claims -/

/-- C1: for every non-empty coin list and positive budget at most the total
balance, `_coins_for_budget` succeeds with a selection whose balances sum to
at least the budget, and on the accumulation path (no single coin strictly
exceeds the budget) dropping the last-added coin makes the sum fall strictly
below the budget. -/
theorem coins_for_budget_covers_and_minimal
    (coins : List SuiCoinObjectGQL) (budget : Int)
    (hne : coins ≠ []) (hpos : 0 < budget)
    (hsum : budget ≤ sum_balances coins) :
    ∃ sel : List SuiCoinObjectGQL,
      coins_for_budget coins budget = .ok (sel.map ObjectReference.from_gql_ref)
      ∧ budget ≤ sum_balances sel
      ∧ (coins.filter (fun x => decide (budget < x.balance)) = [] →
          sum_balances sel.dropLast < budget) := by
  cases hfil : coins.filter (fun x => decide (budget < x.balance)) with
  | cons c rest =>
    refine ⟨[c], ?_, ?_, ?_⟩
    · rw [coins_for_budget, hfil]
      rfl
    · have hc : c ∈ coins.filter (fun x => decide (budget < x.balance)) :=
        hfil ▸ List.mem_cons_self c rest
      have hlt : budget < c.balance := by
        simpa using (List.mem_filter.mp hc).2
      rw [sum_balances_cons, sum_balances_nil]
      linarith
    · intro h
      exact (List.cons_ne_nil c rest h).elim
  | nil =>
    have hge : budget ≤ (accum_coins budget coins 0 []).1 :=
      accum_coins_ge budget coins 0 [] (by simpa using hsum)
    have hsumr : (accum_coins budget coins 0 []).1
        = sum_balances (accum_coins budget coins 0 []).2 :=
      accum_coins_sum budget coins 0 [] (by rw [sum_balances_nil])
    refine ⟨(accum_coins budget coins 0 []).2, ?_, ?_, ?_⟩
    · rw [coins_for_budget, hfil]
      simp only [if_neg (not_lt.mpr hge)]
    · linarith [hsumr ▸ hge]
    · intro _
      rcases accum_coins_dropLast budget coins 0 []
          (by rw [sum_balances_nil]) (Or.inl rfl) with h2 | h2
      · exfalso
        rw [h2, sum_balances_nil] at hsumr
        linarith [hsumr ▸ hge]
      · exact h2

/-- Witness for C1 at coins `[50, 30]` and budget `60`. -/
theorem coins_for_budget_covers_and_minimal_witness :
    ([c1_ex, c2_ex] ≠ ([] : List SuiCoinObjectGQL))
    ∧ (0 : Int) < 60 ∧ (60 : Int) ≤ sum_balances [c1_ex, c2_ex]
    ∧ ∃ sel : List SuiCoinObjectGQL,
        coins_for_budget [c1_ex, c2_ex] 60
          = .ok (sel.map ObjectReference.from_gql_ref)
        ∧ (60 : Int) ≤ sum_balances sel
        ∧ ([c1_ex, c2_ex].filter (fun x => decide ((60 : Int) < x.balance)) = [] →
            sum_balances sel.dropLast < 60) :=
  ⟨by decide, by decide, by decide,
   coins_for_budget_covers_and_minimal [c1_ex, c2_ex] 60
     (by decide) (by decide) (by decide)⟩

/-- C2: if some coin's balance strictly exceeds the budget, the selector
returns exactly the first such coin in input order; a single coin whose
balance exactly equals the budget is not caught by that shortcut (the
filter is empty) yet is selected by the accumulation path. -/
theorem coins_for_budget_single_coin_shortcut (budget : Int)
    (hpos : 0 < budget) :
    (∀ (pre post : List SuiCoinObjectGQL) (c : SuiCoinObjectGQL),
       (∀ x ∈ pre, x.balance ≤ budget) → budget < c.balance →
       coins_for_budget (pre ++ c :: post) budget
         = .ok [ObjectReference.from_gql_ref c])
    ∧ (∀ c : SuiCoinObjectGQL, c.balance = budget →
        ([c].filter (fun x => decide (budget < x.balance)) = []
         ∧ coins_for_budget [c] budget = .ok [ObjectReference.from_gql_ref c])) := by
  constructor
  · intro pre post c hpre hc
    have hfilpre : pre.filter (fun x => decide (budget < x.balance)) = [] := by
      rw [List.filter_eq_nil_iff]
      intro x hx
      simpa using not_lt.mpr (hpre x hx)
    have hfil : (pre ++ c :: post).filter (fun x => decide (budget < x.balance))
        = c :: post.filter (fun x => decide (budget < x.balance)) := by
      rw [List.filter_append, hfilpre, List.nil_append, List.filter_cons_of_pos]
      simpa using hc
    rw [coins_for_budget, hfil]
  · intro c hc
    have hfil : [c].filter (fun x => decide (budget < x.balance)) = [] := by
      rw [List.filter_eq_nil_iff]
      intro x hx
      simp at hx
      subst hx
      simp [hc]
    refine ⟨hfil, ?_⟩
    rw [coins_for_budget, hfil]
    have hba : ¬ budget ≤ (0 : Int) := not_le.mpr hpos
    have hacc : accum_coins budget [c] 0 [] = (c.balance, [c]) := by
      rw [accum_coins, if_neg hba, accum_coins]
      simp
    rw [hacc]
    simp [hc]

/-- Witness for C2 at budget `40`: the list `[30, 50]` takes the shortcut on
the 50-coin, and the single list `[40]` is selected by accumulation. -/
theorem coins_for_budget_single_coin_shortcut_witness :
    coins_for_budget ([c2_ex] ++ c1_ex :: []) 40
      = .ok [ObjectReference.from_gql_ref c1_ex]
    ∧ ([c3_ex].filter (fun x => decide ((40 : Int) < x.balance)) = []
       ∧ coins_for_budget [c3_ex] 40 = .ok [ObjectReference.from_gql_ref c3_ex]) :=
  ⟨(coins_for_budget_single_coin_shortcut 40 (by decide)).1 [c2_ex] [] c1_ex
     (by decide) (by decide),
   (coins_for_budget_single_coin_shortcut 40 (by decide)).2 c3_ex (by decide)⟩

/-- C3: when the total balance (all balances non-negative) falls strictly
short of the positive budget — in particular for the empty list — the
selector fails with the insufficient-gas error carrying the sum found and
the budget required, returning no selection. -/
theorem coins_for_budget_insufficient (coins : List SuiCoinObjectGQL)
    (budget : Int) (hpos : 0 < budget)
    (hnn : ∀ c ∈ coins, 0 ≤ c.balance)
    (hlt : sum_balances coins < budget) :
    coins_for_budget coins budget
      = .error (.insufficientGas (sum_balances coins) budget) := by
  have hfil : coins.filter (fun x => decide (budget < x.balance)) = [] := by
    rw [List.filter_eq_nil_iff]
    intro c hc
    have h1 : c.balance ≤ sum_balances coins := balance_le_sum coins c hc hnn
    simp only [decide_eq_true_eq, not_lt]
    linarith
  have hacc : accum_coins budget coins 0 [] = (sum_balances coins, coins) := by
    have := accum_coins_all budget coins 0 [] hnn (by simpa using hlt)
    simpa using this
  rw [coins_for_budget, hfil, hacc]
  simp [hlt]

/-- Witness for C3 at coins `[50, 30]` and budget `100` (total 80 < 100),
and implicitly covering the hypotheses with concrete checks. -/
theorem coins_for_budget_insufficient_witness :
    coins_for_budget [c1_ex, c2_ex] 100
      = .error (.insufficientGas (sum_balances [c1_ex, c2_ex]) 100) :=
  coins_for_budget_insufficient [c1_ex, c2_ex] 100 (by decide)
    (by decide) (by decide)

/-! ### Lemmas about the pagination loop -/

theorem get_all_gas_loop_all_ok (payer : String) (last : CoinPage)
    (hlast : last.hasNextPage = false) :
    ∀ (front : List CoinPage) (idx : Nat) (acc : List SuiCoinObjectGQL),
      (∀ p ∈ front, p.hasNextPage = true) →
      (get_all_gas_loop payer ((front ++ [last]).map GQLResult.ok) idx acc).1
        = acc ++ (front.map CoinPage.data).flatten ++ last.data := by
  intro front
  induction front with
  | nil =>
    intro idx acc _
    simp [get_all_gas_loop, hlast]
  | cons p front ih =>
    intro idx acc hfront
    have hp : p.hasNextPage = true := hfront p (List.mem_cons_self p front)
    have ih2 := ih (idx + 1) (acc ++ p.data)
      (fun q hq => hfront q (List.mem_cons_of_mem p hq))
    simp only [List.map_append, List.map_cons, List.map_nil] at ih2
    simp only [List.cons_append, List.map_cons, List.map_nil, get_all_gas_loop,
      hp, if_true, List.append_eq, List.map_append]
    rw [ih2]
    simp [List.append_assoc]

theorem get_all_gas_loop_err (payer : String) (msg : String)
    (rest : List (GQLResult CoinPage)) :
    ∀ (front : List CoinPage) (idx : Nat) (acc : List SuiCoinObjectGQL),
      (∀ p ∈ front, p.hasNextPage = true) →
      (get_all_gas_loop payer
          (front.map GQLResult.ok ++ GQLResult.err msg :: rest) idx acc).1
        = acc ++ (front.map CoinPage.data).flatten := by
  intro front
  induction front with
  | nil =>
    intro idx acc _
    simp [get_all_gas_loop]
  | cons p front ih =>
    intro idx acc hfront
    have hp : p.hasNextPage = true := hfront p (List.mem_cons_self p front)
    have ih2 := ih (idx + 1) (acc ++ p.data)
      (fun q hq => hfront q (List.mem_cons_of_mem p hq))
    simp only [List.cons_append, List.map_cons, get_all_gas_loop, hp, if_true,
      List.append_eq]
    rw [ih2]
    simp [List.append_assoc]

/-! ### The pagination claims -/

/-- C8: if the very first `GetCoins` response fails, `_get_all_gas_objects`
returns the empty list (its type shows it cannot raise); when every
response succeeds, it follows `hasNextPage` through all pages and returns
the concatenation of every page's items. -/
theorem get_all_gas_objects_first_error_and_pagination
    (signing : SignerBlock) (client : Client) :
    (∀ (msg : String) (rest : List (GQLResult CoinPage)),
       client.coin_pages = GQLResult.err msg :: rest →
       (get_all_gas_objects signing client).1 = [])
    ∧ (∀ (front : List CoinPage) (last : CoinPage),
        client.coin_pages = (front ++ [last]).map GQLResult.ok →
        (∀ p ∈ front, p.hasNextPage = true) →
        last.hasNextPage = false →
        (get_all_gas_objects signing client).1
          = ((front ++ [last]).map CoinPage.data).flatten) := by
  constructor
  · intro msg rest h
    rw [get_all_gas_objects, h]
    simp [get_all_gas_loop]
  · intro front last h hfront hlast
    rw [get_all_gas_objects, h,
      get_all_gas_loop_all_ok signing.payer_address last hlast front 0 [] hfront]
    simp

/-- Witness for C8: a first-response failure yields `[]`, and a two-page
success yields both pages' coins. -/
theorem get_all_gas_objects_first_error_and_pagination_witness :
    (get_all_gas_objects sig_ex (mk_client [GQLResult.err "boom"])).1 = []
    ∧ (get_all_gas_objects sig_ex
        (mk_client [GQLResult.ok ⟨[c1_ex], true⟩, GQLResult.ok ⟨[c2_ex], false⟩])).1
      = (([(⟨[c1_ex], true⟩ : CoinPage)] ++ [(⟨[c2_ex], false⟩ : CoinPage)]).map CoinPage.data).flatten :=
  ⟨(get_all_gas_objects_first_error_and_pagination sig_ex
      (mk_client [GQLResult.err "boom"])).1 "boom" [] rfl,
   (get_all_gas_objects_first_error_and_pagination sig_ex
      (mk_client [GQLResult.ok ⟨[c1_ex], true⟩, GQLResult.ok ⟨[c2_ex], false⟩])).2
     [⟨[c1_ex], true⟩] ⟨[c2_ex], false⟩ rfl (by decide) rfl⟩

/-- C9: if a continuation response after some successful pages fails,
`_get_all_gas_objects` silently returns exactly the coins of the pages that
succeeded before the failure. -/
theorem get_all_gas_objects_midstream_error
    (signing : SignerBlock) (client : Client)
    (front : List CoinPage) (msg : String) (rest : List (GQLResult CoinPage))
    (h : client.coin_pages = front.map GQLResult.ok ++ GQLResult.err msg :: rest)
    (hfront : ∀ p ∈ front, p.hasNextPage = true) :
    (get_all_gas_objects signing client).1 = (front.map CoinPage.data).flatten := by
  rw [get_all_gas_objects, h,
    get_all_gas_loop_err signing.payer_address msg rest front 0 [] hfront]
  simp

/-- Witness for C9: one successful page followed by a failed continuation
yields only the first page's coins. -/
theorem get_all_gas_objects_midstream_error_witness :
    (get_all_gas_objects sig_ex
        (mk_client [GQLResult.ok ⟨[c1_ex], true⟩, GQLResult.err "boom"])).1
      = ([(⟨[c1_ex], true⟩ : CoinPage)].map CoinPage.data).flatten :=
  get_all_gas_objects_midstream_error sig_ex
    (mk_client [GQLResult.ok ⟨[c1_ex], true⟩, GQLResult.err "boom"])
    [⟨[c1_ex], true⟩] "boom" [] rfl (by decide)

/-! ### Lemmas about the issued-query log of `get_gas_data` -/

theorem dry_run_queries_append (l₁ l₂ : List Query) :
    dry_run_queries (l₁ ++ l₂) = dry_run_queries l₁ ++ dry_run_queries l₂ := by
  simp [dry_run_queries]

theorem dry_run_queries_loop (payer : String)
    (pages : List (GQLResult CoinPage)) :
    ∀ (idx : Nat) (acc : List SuiCoinObjectGQL),
      dry_run_queries (get_all_gas_loop payer pages idx acc).2 = [] := by
  induction pages with
  | nil =>
    intro idx acc
    simp [get_all_gas_loop, dry_run_queries]
  | cons resp rest ih =>
    intro idx acc
    cases resp with
    | err s => simp [get_all_gas_loop, dry_run_queries]
    | ok page =>
      by_cases hn : page.hasNextPage = true
      · simp only [get_all_gas_loop, hn, if_true]
        simp only [dry_run_queries, List.filterMap_cons]
        exact ih (idx + 1) (acc ++ page.data)
      · simp [get_all_gas_loop, hn, dry_run_queries]

theorem dry_run_queries_determine (signing : SignerBlock) (client : Client)
    (use_coins : Option (List CoinArg)) :
    dry_run_queries (determine_use_coins signing client use_coins).2 = [] := by
  rw [determine_use_coins]
  by_cases ht : truthy_coins use_coins = true
  · simp only [ht, if_true]
    by_cases h1 : (use_coins.getD []).all CoinArg.is_str = true
    · simp [h1, get_gas_objects, dry_run_queries]
    · by_cases h2 : (use_coins.getD []).all CoinArg.is_coin = true
      · simp [h1, h2, dry_run_queries]
      · simp [h1, h2, dry_run_queries]
  · simp only [Bool.not_eq_true] at ht
    simp only [ht, Bool.false_eq_true, if_false]
    exact dry_run_queries_loop signing.payer_address client.coin_pages 0 []

theorem dry_run_queries_budget_log (signing : SignerBlock) (client : Client)
    (tx : String) (price : Int) :
    dry_run_queries (dry_run_for_budget signing client tx price).2
      = [⟨tx, ⟨signing.sender_str, price, signing.sponsor_str⟩, false⟩] := rfl

/-! ### The dry-run claims -/

/-- Counterexample to C5 as stated: an explicit budget of `0` is supplied,
yet `get_gas_data` issues a dry-run query, because `if not budget:` treats
`0` as absent. -/
theorem explicit_zero_budget_triggers_dry_run_cex :
    (some (0 : Int)).isSome = true
    ∧ (dry_run_queries
        (get_gas_data sig_ex client_ex (some 0) (some [CoinArg.coin c1_ex])
          [] 1 "dHg=").2).length = 1 := by
  constructor
  · rfl
  · rfl

/-- C5 (amended): `get_gas_data` never issues more than one dry-run query;
it issues none when an explicit non-zero budget is supplied; and it issues
exactly one when the budget is absent or zero (Python truthiness treats an
explicit `0` as absent), provided the candidate-coin step succeeded. -/
theorem dry_run_count (signing : SignerBlock) (client : Client)
    (budget : Option Int) (use_coins : Option (List CoinArg))
    (objects_in_use : List String) (active_gas_price : Int) (tx : String) :
    (dry_run_queries
        (get_gas_data signing client budget use_coins objects_in_use
          active_gas_price tx).2).length ≤ 1
    ∧ (∀ b : Int, budget = some b → b ≠ 0 →
        dry_run_queries
          (get_gas_data signing client budget use_coins objects_in_use
            active_gas_price tx).2 = [])
    ∧ ((budget = none ∨ budget = some 0) →
        ∀ (cs : List SuiCoinObjectGQL) (qs : List Query),
          determine_use_coins signing client use_coins = (.ok cs, qs) →
          (dry_run_queries
              (get_gas_data signing client budget use_coins objects_in_use
                active_gas_price tx).2).length = 1) := by
  cases hd : (determine_use_coins signing client use_coins).1 with
  | error e =>
    simp only [get_gas_data, hd]
    rw [dry_run_queries_determine]
    refine ⟨by simp, fun _ _ _ => rfl, ?_⟩
    intro _ cs qs hcs
    have : (determine_use_coins signing client use_coins).1 = .ok cs := by
      rw [hcs]
    rw [hd] at this
    cases this
  | ok coins =>
    simp only [get_gas_data, hd]
    by_cases ht : truthy_budget budget = true
    · simp only [ht, if_true]
      rw [dry_run_queries_append, dry_run_queries_determine]
      refine ⟨by simp [dry_run_queries], fun _ _ _ => by simp [dry_run_queries], ?_⟩
      intro hb _ _ _
      rcases hb with hb | hb
      · rw [hb] at ht
        simp [truthy_budget] at ht
      · rw [hb] at ht
        simp [truthy_budget] at ht
    · simp only [Bool.not_eq_true] at ht
      simp only [ht, Bool.false_eq_true, if_false]
      rw [dry_run_queries_append, dry_run_queries_determine,
        dry_run_queries_budget_log]
      refine ⟨by simp, ?_, fun _ _ _ _ => by simp⟩
      intro b hb hb0
      rw [hb] at ht
      simp [truthy_budget, hb0] at ht

/-- Witness for the amended C5: with an explicit budget of `7` no dry-run
is issued, and with no budget exactly one is issued. -/
theorem dry_run_count_witness :
    dry_run_queries
      (get_gas_data sig_ex client_ex (some 7) (some [CoinArg.coin c1_ex])
        [] 1 "dHg=").2 = []
    ∧ (dry_run_queries
        (get_gas_data sig_ex client_ex none (some [CoinArg.coin c1_ex])
          [] 1 "dHg=").2).length = 1 :=
  ⟨(dry_run_count sig_ex client_ex (some 7) (some [CoinArg.coin c1_ex])
      [] 1 "dHg=").2.1 7 rfl (by decide),
   (dry_run_count sig_ex client_ex none (some [CoinArg.coin c1_ex])
      [] 1 "dHg=").2.2 (Or.inl rfl) [c1_ex] [] rfl⟩

/-- Counterexample to C4 as stated: the dry-run request issued by a
budget-less resolution has its skip-checks flag set to `False`, not set so
that checks are skipped — the code passes `skip_checks=False`. -/
theorem dry_run_skip_checks_false_cex :
    dry_run_queries
        (get_gas_data sig_ex client_ex none (some [CoinArg.coin c1_ex])
          [] 1 "dHg=").2
      = [⟨"dHg=", ⟨"0xsender", 1, some "0xsponsor"⟩, false⟩]
    ∧ (⟨"dHg=", ⟨"0xsender", 1, some "0xsponsor"⟩, false⟩
        : DryRunTxArgs).skip_checks ≠ true := by
  constructor
  · rfl
  · decide

/-- C4 (amended): every dry-run request issued by `get_gas_data` carries the
serialized transaction body, the signer's sender address, the gas price and
the optional sponsor address, and has the skip-checks flag set to `False`
(state-change checks are not disabled). -/
theorem dry_run_request_fields (signing : SignerBlock) (client : Client)
    (budget : Option Int) (use_coins : Option (List CoinArg))
    (objects_in_use : List String) (active_gas_price : Int) (tx : String)
    (args : DryRunTxArgs)
    (h : args ∈ dry_run_queries
        (get_gas_data signing client budget use_coins objects_in_use
          active_gas_price tx).2) :
    args = ⟨tx, ⟨signing.sender_str, active_gas_price, signing.sponsor_str⟩,
            false⟩ := by
  cases hd : (determine_use_coins signing client use_coins).1 with
  | error e =>
    simp only [get_gas_data, hd] at h
    rw [dry_run_queries_determine] at h
    cases h
  | ok coins =>
    simp only [get_gas_data, hd] at h
    by_cases ht : truthy_budget budget = true
    · simp only [ht, if_true] at h
      rw [dry_run_queries_append, dry_run_queries_determine] at h
      simp [dry_run_queries] at h
    · simp only [Bool.not_eq_true] at ht
      simp only [ht, Bool.false_eq_true, if_false] at h
      rw [dry_run_queries_append, dry_run_queries_determine,
        dry_run_queries_budget_log] at h
      simpa using h

/-- Witness for the amended C4 at a concrete budget-less resolution. -/
theorem dry_run_request_fields_witness :
    (⟨"dHg=", ⟨"0xsender", 1, some "0xsponsor"⟩, false⟩ : DryRunTxArgs)
      = ⟨"dHg=", ⟨sig_ex.sender_str, 1, sig_ex.sponsor_str⟩, false⟩ :=
  dry_run_request_fields sig_ex client_ex none (some [CoinArg.coin c1_ex])
    [] 1 "dHg=" ⟨"dHg=", ⟨"0xsender", 1, some "0xsponsor"⟩, false⟩
    (by decide)

/-! ### The assembler claims -/

/-- C6: on every successful resolution, no object reference of the returned
`GasData` has an identifier in the reserved (`objects_in_use`) set. -/
theorem reserved_coins_excluded (signing : SignerBlock) (client : Client)
    (budget : Option Int) (use_coins : Option (List CoinArg))
    (objects_in_use : List String) (active_gas_price : Int) (tx : String)
    (gd : GasData)
    (h : (get_gas_data signing client budget use_coins objects_in_use
        active_gas_price tx).1 = .ok gd) :
    ∀ r ∈ gd.payment, objects_in_use.contains r.object_id = false := by
  intro r hr
  cases hd : (determine_use_coins signing client use_coins).1 with
  | error e =>
    simp only [get_gas_data, hd] at h
    cases h
  | ok coins =>
    simp only [get_gas_data, hd] at h
    cases hb : (if truthy_budget budget then
        ((.ok (budget.getD 0) : Except GasError Int), ([] : List Query))
      else dry_run_for_budget signing client tx active_gas_price).1 with
    | error e =>
      rw [hb] at h
      cases h
    | ok b =>
      rw [hb] at h
      by_cases hemp : (coins.filter
          (fun x => !(objects_in_use.contains x.coin_object_id))).isEmpty = true
      · simp only [hemp, if_true] at h
        cases h
      · simp only [Bool.not_eq_true] at hemp
        simp only [hemp, Bool.false_eq_true, if_false] at h
        cases hcfb : coins_for_budget (coins.filter
            (fun x => !(objects_in_use.contains x.coin_object_id))) b with
        | error e =>
          rw [hcfb] at h
          cases h
        | ok refs =>
          rw [hcfb] at h
          cases h
          rcases coins_for_budget_mem _ b refs hcfb r hr with ⟨c, hc, hrc⟩
          have hfc := (List.mem_filter.mp hc).2
          simp only [Bool.not_eq_true'] at hfc
          rw [hrc]
          exact hfc

/-- Witness for C6: the reserved coin `0xc2` is excluded from a successful
concrete resolution. -/
theorem reserved_coins_excluded_witness :
    (["0xc2"] : List String).contains
        (ObjectReference.from_gql_ref c1_ex).object_id = false :=
  reserved_coins_excluded sig_ex client_ex (some 5)
    (some [CoinArg.coin c1_ex, CoinArg.coin c2_ex]) ["0xc2"] 1 "dHg="
    ⟨[ObjectReference.from_gql_ref c1_ex], "0xpayer", 1, 5⟩ rfl
    (ObjectReference.from_gql_ref c1_ex) (by decide)

/-- Counterexample to C7 as stated: an explicit negative budget `-1` does
not fail at all — `get_gas_data` succeeds, selecting the first coin, since
no positivity check exists (no invalid-argument error constructor
corresponds to any `raise` in the code). -/
theorem nonpositive_budget_no_error_cex :
    (get_gas_data sig_ex client_ex (some (-1)) (some [CoinArg.coin c1_ex])
        [] 1 "dHg=").1
      = .ok ⟨[ObjectReference.from_gql_ref c1_ex], "0xpayer", 1, -1⟩ := rfl

/-- C7 (amended): a non-positive explicit budget is not rejected: a negative
budget skips the dry run and proceeds to selection, succeeding on any
unreserved coin of non-negative balance; an explicit budget of zero behaves
exactly as an absent budget (it triggers the dry-run estimate). -/
theorem nonpositive_budget_behavior (signing : SignerBlock) (client : Client)
    (b : Int) (hb : b < 0) (c : SuiCoinObjectGQL) (hc : 0 ≤ c.balance)
    (objects_in_use : List String)
    (hres : objects_in_use.contains c.coin_object_id = false)
    (active_gas_price : Int) (tx : String) :
    ((get_gas_data signing client (some b) (some [CoinArg.coin c])
        objects_in_use active_gas_price tx).1
      = .ok ⟨[ObjectReference.from_gql_ref c], signing.payer_address,
             active_gas_price, b⟩)
    ∧ (∀ use_coins : Option (List CoinArg),
        get_gas_data signing client (some 0) use_coins objects_in_use
          active_gas_price tx
        = get_gas_data signing client none use_coins objects_in_use
          active_gas_price tx) := by
  constructor
  · have hdet : determine_use_coins signing client (some [CoinArg.coin c])
        = (.ok [c], []) := rfl
    have hb0 : b ≠ 0 := by omega
    have hbt : truthy_budget (some b) = true := by
      simp [truthy_budget, hb0]
    have hmem : c.coin_object_id ∉ objects_in_use := by
      simpa using hres
    have hfilter : [c].filter
        (fun x => !(objects_in_use.contains x.coin_object_id)) = [c] := by
      simp [List.filter, hmem]
    have hsel : coins_for_budget [c] b
        = .ok [ObjectReference.from_gql_ref c] := by
      have : [c].filter (fun x => decide (b < x.balance)) = [c] := by
        have : b < c.balance := by omega
        simp [List.filter, this]
      rw [coins_for_budget, this]
    simp only [get_gas_data, hdet, hbt, if_true, Option.getD, hfilter, hsel,
      List.isEmpty]
    rfl
  · intro use_coins
    rfl

/-- Witness for the amended C7 at budget `-1` and coin `0xc1`. -/
theorem nonpositive_budget_behavior_witness :
    ((get_gas_data sig_ex client_ex (some (-1)) (some [CoinArg.coin c1_ex])
        ["0xres"] 1 "dHg=").1
      = .ok ⟨[ObjectReference.from_gql_ref c1_ex], sig_ex.payer_address,
             1, -1⟩)
    ∧ (∀ use_coins : Option (List CoinArg),
        get_gas_data sig_ex client_ex (some 0) use_coins ["0xres"] 1 "dHg="
        = get_gas_data sig_ex client_ex none use_coins ["0xres"] 1 "dHg=") :=
  nonpositive_budget_behavior sig_ex client_ex (-1) (by decide) c1_ex
    (by decide) ["0xres"] (by decide) 1 "dHg="

/-- C10: calling `get_gas_data` with an explicit empty coin list behaves
exactly as calling it with no coin list at all, and the empty list resolves
the candidates through the fetch-all-owned-coins path (it neither trips the
homogeneity check nor yields an empty candidate set by itself). -/
theorem empty_use_coins_like_none (signing : SignerBlock) (client : Client)
    (budget : Option Int) (objects_in_use : List String)
    (active_gas_price : Int) (tx : String) :
    (get_gas_data signing client budget (some []) objects_in_use
        active_gas_price tx
      = get_gas_data signing client budget none objects_in_use
        active_gas_price tx)
    ∧ determine_use_coins signing client (some [])
      = (.ok (get_all_gas_objects signing client).1,
         (get_all_gas_objects signing client).2) := by
  constructor
  · rfl
  · rfl

end PysuiGas
